import Mathlib

/-!
# PixAura: gesture-to-motion engine of `src/app.js`

A shallow embedding of the interaction core of `app.js`:

* the global `state` object and the `CONFIG` constants,
* `onHandResults` (hand-landmark callback), `animate` (display tick),
  the `keydown` listener of `setupEventListeners`, and `resetView`,
* the position part of `createParticles`.

JavaScript numbers are modelled in exact arithmetic: rationals for the state
machine (so the definitions evaluate), reals for the spiral generator (which
needs `cos`, `sin` and `sqrt`).  Canvas drawing, toasts, the colour buffer and
the renderer are not part of the modelled state.
-/

namespace PixAura

/-! ## Data model -/

/-- A 2D vector such as `state.handPosition` or `state.rotationSpeed`. -/
structure Vec2 where
  x : ℚ
  y : ℚ
deriving DecidableEq

/-- A 3D vector such as `particles.rotation` or `particles.scale`. -/
structure Vec3 where
  x : ℚ
  y : ℚ
  z : ℚ
deriving DecidableEq

/-- The part of the `THREE.Points` object `state.particles` that `app.js` writes. -/
structure Particles where
  rotation : Vec3
  scale : Vec3
deriving DecidableEq

/-- The global `state` object (lines 2-16), restricted to the fields the
interaction core reads or writes.  `particles` is `null` until `createParticles` ran. -/
structure State where
  particles : Option Particles
  handPosition : Vec2
  isPinching : Bool
  expandFactor : ℚ
  targetExpand : ℚ
  rotationSpeed : Vec2
deriving DecidableEq

/-- The initial value of `state` (lines 2-16). -/
def state : State :=
  { particles := none
    handPosition := { x := 0, y := 0 }
    isPinching := false
    expandFactor := 1
    targetExpand := 1
    rotationSpeed := { x := 0, y := 0 } }

/-- The shape of the `CONFIG` object (lines 19-27). -/
structure Config where
  particleCount : ℕ
  spiralArms : ℕ
  spiralTightness : ℚ
  maxRadius : ℚ
  expandSpeed : ℚ
  rotationDamping : ℚ
  pinchThreshold : ℚ

/-- The `CONFIG` constants (lines 19-27). -/
def CONFIG : Config :=
  { particleCount := 15000
    spiralArms := 5
    spiralTightness := 0.3
    maxRadius := 3
    expandSpeed := 0.05
    rotationDamping := 0.95
    pinchThreshold := 0.05 }

/-- One normalized hand keypoint; only `x` and `y` are read by `app.js`. -/
structure Landmark where
  x : ℚ
  y : ℚ
deriving DecidableEq

/-- One landmark set: the fixed 21-point hand skeleton delivered by the tracker. -/
abbrev Landmarks := Fin 21 → Landmark

/-- The argument of `onHandResults`: `multiHandLandmarks` may be missing
(`none`), empty, or hold landmark sets. -/
structure Results where
  multiHandLandmarks : Option (List Landmarks)

/-! ## Hand callback -/

/-- The test `Math.sqrt(a) < b` in exact arithmetic, decided without extracting
the root: for `a ≥ 0` it holds exactly when `b` is positive and `a < b * b`
(see `sqrtLt_iff_real`). -/
def sqrtLt (a b : ℚ) : Bool :=
  decide (0 < b ∧ a < b * b)

/-- The argument of `Math.sqrt` on lines 186-189: the squared distance between
the thumb tip (landmark 4) and the index tip (landmark 8). -/
def distanceSq (landmarks : Landmarks) : ℚ :=
  ((landmarks 4).x - (landmarks 8).x) ^ 2 + ((landmarks 4).y - (landmarks 8).y) ^ 2

/-- The toggle `state.targetExpand === 1 ? 2 : 1` (lines 195 and 246). -/
def toggle (targetExpand : ℚ) : ℚ :=
  if targetExpand = 1 then 2 else 1

/-- The state effect of `onHandResults` (lines 160-205) for a given configuration. -/
def onHandResultsWith (cfg : Config) (s : State) (results : Results) : State :=
  match results.multiHandLandmarks with
  | some (landmarks :: _) =>
    let palmCenter := landmarks 9
    let handPosition : Vec2 :=
      { x := (palmCenter.x - 0.5) * 2, y := -(palmCenter.y - 0.5) * 2 }
    let wasPinching := s.isPinching
    let isPinching := sqrtLt (distanceSq landmarks) cfg.pinchThreshold
    let targetExpand :=
      if isPinching && !wasPinching then toggle s.targetExpand else s.targetExpand
    { s with
      handPosition := handPosition
      isPinching := isPinching
      targetExpand := targetExpand
      rotationSpeed := { x := handPosition.y * 0.02, y := handPosition.x * 0.02 } }
  | _ => s

/-- The hand callback `onHandResults` under the program's `CONFIG`. -/
def onHandResults (s : State) (results : Results) : State :=
  onHandResultsWith CONFIG s results

/-! ## Display tick -/

/-- The state effect of `animate` (lines 208-238) for a given configuration:
nothing happens while `state.particles` is `null`. -/
def animateWith (cfg : Config) (s : State) : State :=
  match s.particles with
  | some p =>
    let expandFactor := s.expandFactor + (s.targetExpand - s.expandFactor) * cfg.expandSpeed
    let scale : Vec3 := { x := expandFactor, y := expandFactor, z := expandFactor }
    let rotation : Vec3 :=
      { x := p.rotation.x + s.rotationSpeed.x
        y := p.rotation.y + s.rotationSpeed.y
        z := p.rotation.z }
    { s with
      particles := some { rotation := rotation, scale := scale }
      expandFactor := expandFactor
      rotationSpeed :=
        { x := s.rotationSpeed.x * cfg.rotationDamping
          y := s.rotationSpeed.y * cfg.rotationDamping } }
  | none => s

/-- The display tick `animate` under the program's `CONFIG`. -/
def animate (s : State) : State :=
  animateWith CONFIG s

/-! ## Keyboard -/

/-- The function `resetView` (lines 263-268).  Its first statement dereferences
`state.particles`, so it throws (`none`) before any write when that is `null`. -/
def resetView (s : State) : Option State :=
  match s.particles with
  | some p =>
    some { s with
      particles := some { p with rotation := { x := 0, y := 0, z := 0 } }
      rotationSpeed := { x := 0, y := 0 }
      targetExpand := 1 }
  | none => none

/-- The method `String.prototype.toLowerCase` on the keys that matter here. -/
def toLowerCase (key : List Char) : List Char :=
  key.map Char.toLower

/-- The `keydown` listener of `setupEventListeners` (lines 242-253); `key` is `e.key`. -/
def keydown (key : List Char) (s : State) : Option State :=
  if toLowerCase key = [' '] then
    some { s with targetExpand := toggle s.targetExpand }
  else if toLowerCase key = ['r'] then
    resetView s
  else
    some s

/-! ## Callback sequences -/

/-- The callbacks the browser delivers to the core, one at a time. -/
inductive Event where
  | handResults (results : Results)
  | key (key : List Char)
  | frame

/-- One callback run to completion.  A listener that throws leaves the state as
it was at the throw, which for `resetView` is the unchanged state. -/
def stepWith (cfg : Config) (s : State) : Event → State
  | .handResults results => onHandResultsWith cfg s results
  | .key k => (keydown k s).getD s
  | .frame => animateWith cfg s

/-- A finite sequence of callbacks, in delivery order. -/
def runWith (cfg : Config) (s : State) (events : List Event) : State :=
  events.foldl (stepWith cfg) s

/-- A callback sequence under the program's `CONFIG`. -/
def run (s : State) (events : List Event) : State :=
  runWith CONFIG s events

/-- The display tick repeated `n` times with no callback in between. -/
def ticksWith (cfg : Config) (n : ℕ) (s : State) : State :=
  (animateWith cfg)^[n] s

/-! ## Particle field generator -/

/-- The arm a particle is put on: `i % CONFIG.spiralArms` (line 98). -/
def armIndex (cfg : Config) (i : ℕ) : ℕ :=
  i % cfg.spiralArms

/-- The position written for particle `i` by `createParticles` (lines 94-102);
`t` and `u` are the two `Math.random()` draws of the iteration. -/
noncomputable def particlePosition (cfg : Config) (i : ℕ) (t u : ℝ) : ℝ × ℝ × ℝ :=
  let angle := t * Real.pi * 2 * (cfg.spiralArms : ℝ)
  let radius := t * (cfg.maxRadius : ℝ)
  let armOffset := (armIndex cfg i : ℝ) * (Real.pi * 2 / (cfg.spiralArms : ℝ))
  (Real.cos (angle + armOffset) * radius, (u - 0.5) * 0.5, Real.sin (angle + armOffset) * radius)

/-- The position buffer built by `createParticles` (lines 89-110), as a list of
points; `random k` is the value of the `k`-th call of `Math.random()`. -/
noncomputable def createParticles (cfg : Config) (random : ℕ → ℝ) : List (ℝ × ℝ × ℝ) :=
  (List.range cfg.particleCount).map
    fun i => particlePosition cfg i (random (2 * i)) (random (2 * i + 1))

/-- The planar radius `sqrt(x^2 + z^2)` of a generated point. -/
noncomputable def planarRadius (p : ℝ × ℝ × ℝ) : ℝ :=
  Real.sqrt (p.1 ^ 2 + p.2.2 ^ 2)

/-- The number of particle indices below `n` that are put on arm `a`. -/
def armCount (cfg : Config) (n a : ℕ) : ℕ :=
  ((List.range n).filter fun i => armIndex cfg i = a).length

/-! ## Concrete inputs used below -/

/-- A landmark set with the palm centre at `palm`, the thumb tip at `thumb`,
the index tip at `index`, and every other keypoint at the origin. -/
def mkLandmarks (palm thumb index : Landmark) : Landmarks :=
  fun i => if i = 9 then palm else if i = 4 then thumb else if i = 8 then index
    else { x := 0, y := 0 }

/-- A callback result carrying exactly one landmark set. -/
def oneHand (landmarks : Landmarks) : Results :=
  { multiHandLandmarks := some [landmarks] }

/-- The state right after `createParticles`: `state` with a fresh particle object. -/
def ready : State :=
  { state with
    particles := some { rotation := { x := 0, y := 0, z := 0 }, scale := { x := 1, y := 1, z := 1 } } }

/-- A state in the expanded mode, mid-spin, with a turned particle field. -/
def spinning : State :=
  { particles := some { rotation := { x := 1, y := 2, z := 0 }, scale := { x := 2, y := 2, z := 2 } }
    handPosition := { x := 1 / 2, y := 1 / 4 }
    isPinching := true
    expandFactor := 3 / 2
    targetExpand := 2
    rotationSpeed := { x := 1 / 100, y := 1 / 50 } }

/-- A landmark set whose thumb tip and index tip coincide at (0.3, 0.3). -/
def touching : Landmarks :=
  mkLandmarks { x := 0.5, y := 0.5 } { x := 0.3, y := 0.3 } { x := 0.3, y := 0.3 }

/-- A landmark set with the palm centre at (0.75, 0.65) and the finger tips far apart. -/
def offCentre : Landmarks :=
  mkLandmarks { x := 0.75, y := 0.65 } { x := 0.2, y := 0.2 } { x := 0.6, y := 0.6 }

/-- A landmark set with the thumb tip and the index tip 0.01 apart. -/
def pinched : Landmarks :=
  mkLandmarks { x := 0.5, y := 0.5 } { x := 0.5, y := 0.5 } { x := 0.51, y := 0.5 }

/-- A landmark-bearing callback whose thumb-index distance `sqrt(dx^2 + dy^2)`
is below `pinchThreshold`. -/
def IsPinchFrame (cfg : Config) (r : Results) : Prop :=
  ∃ lm rest, r.multiHandLandmarks = some (lm :: rest) ∧
    Real.sqrt ((distanceSq lm : ℚ) : ℝ) < ((cfg.pinchThreshold : ℚ) : ℝ)

/-- The state right after the first toggle: scale 1, target 2, particle field present. -/
def expanding : State :=
  { ready with targetExpand := 2 }

/-! ## Basic facts about the embedding -/

/-- The rational test `sqrtLt` is the real comparison `sqrt a < b` for `a ≥ 0`. -/
theorem sqrtLt_iff_real (a b : ℚ) (ha : 0 ≤ a) :
    sqrtLt a b = true ↔ Real.sqrt (a : ℝ) < (b : ℝ) := by
  have ha' : (0 : ℝ) ≤ (a : ℝ) := by exact_mod_cast ha
  unfold sqrtLt
  rw [decide_eq_true_iff]
  constructor
  · rintro ⟨hb, hab⟩
    have hb' : (0 : ℝ) < (b : ℝ) := by exact_mod_cast hb
    have hab' : (a : ℝ) < (b : ℝ) ^ 2 := by
      have : (a : ℝ) < (b : ℝ) * (b : ℝ) := by exact_mod_cast hab
      nlinarith
    exact (Real.sqrt_lt' hb').2 hab'
  · intro h
    have hb' : (0 : ℝ) < (b : ℝ) := lt_of_le_of_lt (Real.sqrt_nonneg _) h
    have hab' : (a : ℝ) < (b : ℝ) ^ 2 := (Real.sqrt_lt' hb').1 h
    refine ⟨by exact_mod_cast hb', ?_⟩
    have : (a : ℝ) < (b : ℝ) * (b : ℝ) := by nlinarith
    exact_mod_cast this

theorem distanceSq_nonneg (landmarks : Landmarks) : 0 ≤ distanceSq landmarks := by
  unfold distanceSq
  positivity

theorem toggle_ne (t : ℚ) : toggle t ≠ t := by
  unfold toggle
  split_ifs with h
  · rw [h]; norm_num
  · exact fun h' => h h'.symm

theorem toggle_mem (t : ℚ) : toggle t = 1 ∨ toggle t = 2 := by
  unfold toggle
  split_ifs <;> simp

theorem toggle_toggle (t : ℚ) (h : t = 1 ∨ t = 2) : toggle (toggle t) = t := by
  rcases h with h | h <;> subst h <;> norm_num [toggle]

/-! ## The hand callback, field by field -/

theorem onHandResultsWith_none (cfg : Config) (s : State) :
    onHandResultsWith cfg s { multiHandLandmarks := none } = s := rfl

theorem onHandResultsWith_nil (cfg : Config) (s : State) :
    onHandResultsWith cfg s { multiHandLandmarks := some [] } = s := rfl

theorem onHandResultsWith_cons (cfg : Config) (s : State) (lm : Landmarks)
    (rest : List Landmarks) :
    onHandResultsWith cfg s { multiHandLandmarks := some (lm :: rest) } =
      { s with
        handPosition := { x := ((lm 9).x - 0.5) * 2, y := -((lm 9).y - 0.5) * 2 }
        isPinching := sqrtLt (distanceSq lm) cfg.pinchThreshold
        targetExpand :=
          if sqrtLt (distanceSq lm) cfg.pinchThreshold && !s.isPinching
          then toggle s.targetExpand else s.targetExpand
        rotationSpeed :=
          { x := -((lm 9).y - 0.5) * 2 * 0.02, y := ((lm 9).x - 0.5) * 2 * 0.02 } } := rfl

/-- A hand callback changes neither `particles` nor `expandFactor`. -/
theorem onHandResultsWith_frame (cfg : Config) (s : State) (r : Results) :
    (onHandResultsWith cfg s r).particles = s.particles ∧
      (onHandResultsWith cfg s r).expandFactor = s.expandFactor := by
  rcases r with ⟨_ | _ | ⟨lm, rest⟩⟩ <;> exact ⟨rfl, rfl⟩

/-- A hand callback leaves `targetExpand` alone or toggles it. -/
theorem onHandResultsWith_target (cfg : Config) (s : State) (r : Results) :
    (onHandResultsWith cfg s r).targetExpand = s.targetExpand ∨
      (onHandResultsWith cfg s r).targetExpand = toggle s.targetExpand := by
  rcases r with ⟨_ | _ | ⟨lm, rest⟩⟩
  · exact Or.inl rfl
  · exact Or.inl rfl
  · rw [onHandResultsWith_cons]
    dsimp only
    split_ifs
    · exact Or.inr rfl
    · exact Or.inl rfl

/-! ## The display tick, field by field -/

theorem animateWith_none (cfg : Config) (s : State) (h : s.particles = none) :
    animateWith cfg s = s := by
  unfold animateWith
  rw [h]

theorem animateWith_some (cfg : Config) (s : State) (p : Particles) (h : s.particles = some p) :
    animateWith cfg s =
      { s with
        particles := some
          { rotation :=
              { x := p.rotation.x + s.rotationSpeed.x
                y := p.rotation.y + s.rotationSpeed.y
                z := p.rotation.z }
            scale :=
              { x := s.expandFactor + (s.targetExpand - s.expandFactor) * cfg.expandSpeed
                y := s.expandFactor + (s.targetExpand - s.expandFactor) * cfg.expandSpeed
                z := s.expandFactor + (s.targetExpand - s.expandFactor) * cfg.expandSpeed } }
        expandFactor := s.expandFactor + (s.targetExpand - s.expandFactor) * cfg.expandSpeed
        rotationSpeed :=
          { x := s.rotationSpeed.x * cfg.rotationDamping
            y := s.rotationSpeed.y * cfg.rotationDamping } } := by
  unfold animateWith
  rw [h]

/-- A tick changes none of `targetExpand`, `isPinching`, `handPosition`. -/
theorem animateWith_frame (cfg : Config) (s : State) :
    (animateWith cfg s).targetExpand = s.targetExpand ∧
      (animateWith cfg s).isPinching = s.isPinching ∧
      (animateWith cfg s).handPosition = s.handPosition := by
  cases h : s.particles with
  | none => rw [animateWith_none cfg s h]; exact ⟨rfl, rfl, rfl⟩
  | some p => rw [animateWith_some cfg s p h]; exact ⟨rfl, rfl, rfl⟩

/-- Once the particle object exists, a tick keeps it in existence. -/
theorem animateWith_particles (cfg : Config) (s : State) (p : Particles)
    (h : s.particles = some p) : ∃ q, (animateWith cfg s).particles = some q := by
  rw [animateWith_some cfg s p h]
  exact ⟨_, rfl⟩

theorem ticksWith_succ (cfg : Config) (n : ℕ) (s : State) :
    ticksWith cfg (n + 1) s = animateWith cfg (ticksWith cfg n s) := by
  unfold ticksWith
  rw [Function.iterate_succ_apply']

theorem ticksWith_particles (cfg : Config) (n : ℕ) (s : State) (p : Particles)
    (h : s.particles = some p) : ∃ q, (ticksWith cfg n s).particles = some q := by
  induction n with
  | zero => exact ⟨p, h⟩
  | succ n ih =>
    obtain ⟨q, hq⟩ := ih
    rw [ticksWith_succ]
    exact animateWith_particles cfg _ q hq

theorem ticksWith_target (cfg : Config) (n : ℕ) (s : State) :
    (ticksWith cfg n s).targetExpand = s.targetExpand := by
  induction n with
  | zero => rfl
  | succ n ih => rw [ticksWith_succ, (animateWith_frame cfg _).1, ih]

/-- Signed form of the easing law: the error to the target is multiplied by
`1 - expandSpeed` at every tick. -/
theorem ticksWith_expandFactor (cfg : Config) (n : ℕ) (s : State) (p : Particles)
    (h : s.particles = some p) :
    (ticksWith cfg n s).expandFactor - s.targetExpand =
      (s.expandFactor - s.targetExpand) * (1 - cfg.expandSpeed) ^ n := by
  induction n with
  | zero => simp [ticksWith]
  | succ n ih =>
    obtain ⟨q, hq⟩ := ticksWith_particles cfg n s p h
    rw [ticksWith_succ, animateWith_some cfg _ q hq]
    dsimp only
    have ht := ticksWith_target cfg n s
    rw [ht, pow_succ]
    linear_combination (1 - cfg.expandSpeed) * ih

theorem ticksWith_rotationSpeed (cfg : Config) (n : ℕ) (s : State) (p : Particles)
    (h : s.particles = some p) :
    (ticksWith cfg n s).rotationSpeed =
      { x := s.rotationSpeed.x * cfg.rotationDamping ^ n
        y := s.rotationSpeed.y * cfg.rotationDamping ^ n } := by
  induction n with
  | zero => simp [ticksWith]
  | succ n ih =>
    obtain ⟨q, hq⟩ := ticksWith_particles cfg n s p h
    rw [ticksWith_succ, animateWith_some cfg _ q hq]
    dsimp only
    rw [ih]
    simp only [pow_succ, mul_assoc]

@[simp]
theorem mkLandmarks_palm (palm thumb index : Landmark) :
    mkLandmarks palm thumb index 9 = palm := rfl

@[simp]
theorem mkLandmarks_thumb (palm thumb index : Landmark) :
    mkLandmarks palm thumb index 4 = thumb := rfl

@[simp]
theorem mkLandmarks_index (palm thumb index : Landmark) :
    mkLandmarks palm thumb index 8 = index := rfl

/-! ## Keyboard listener and callback sequences -/

theorem resetView_some (s : State) (p : Particles) (h : s.particles = some p) :
    resetView s =
      some { s with
        particles := some { p with rotation := { x := 0, y := 0, z := 0 } }
        rotationSpeed := { x := 0, y := 0 }
        targetExpand := 1 } := by
  unfold resetView
  rw [h]

theorem resetView_none (s : State) (h : s.particles = none) : resetView s = none := by
  unfold resetView
  rw [h]

/-- What one key press can do to the state: nothing, a toggle, or a reset. -/
theorem keydown_cases (k : List Char) (s : State) :
    (keydown k s).getD s = s ∨
      (keydown k s).getD s = { s with targetExpand := toggle s.targetExpand } ∨
      ∃ p, s.particles = some p ∧
        (keydown k s).getD s =
          { s with
            particles := some { p with rotation := { x := 0, y := 0, z := 0 } }
            rotationSpeed := { x := 0, y := 0 }
            targetExpand := 1 } := by
  unfold keydown
  split_ifs with h1 h2
  · exact Or.inr (Or.inl rfl)
  · cases h : s.particles with
    | none => rw [resetView_none s h]; exact Or.inl rfl
    | some p => rw [resetView_some s p h]; exact Or.inr (Or.inr ⟨p, rfl, rfl⟩)
  · exact Or.inl rfl

/-- Every callback keeps `targetExpand` in `{1, 2}`. -/
theorem stepWith_target_mem (cfg : Config) (s : State) (e : Event)
    (h : s.targetExpand = 1 ∨ s.targetExpand = 2) :
    (stepWith cfg s e).targetExpand = 1 ∨ (stepWith cfg s e).targetExpand = 2 := by
  cases e with
  | handResults r =>
    rcases onHandResultsWith_target cfg s r with h' | h'
    · simpa [stepWith, h'] using h
    · simpa [stepWith, h'] using toggle_mem s.targetExpand
  | key k =>
    rcases keydown_cases k s with h' | h' | ⟨p, -, h'⟩
    · simpa [stepWith, h'] using h
    · simpa [stepWith, h'] using toggle_mem s.targetExpand
    · simp [stepWith, h']
  | frame =>
    simpa [stepWith, (animateWith_frame cfg s).1] using h

/-- No callback other than a tick changes `expandFactor`. -/
theorem stepWith_expandFactor (cfg : Config) (s : State) (e : Event) :
    (stepWith cfg s e).expandFactor = s.expandFactor ∨
      (stepWith cfg s e).expandFactor =
        s.expandFactor + (s.targetExpand - s.expandFactor) * cfg.expandSpeed := by
  cases e with
  | handResults r => exact Or.inl (onHandResultsWith_frame cfg s r).2
  | key k =>
    rcases keydown_cases k s with h' | h' | ⟨p, -, h'⟩ <;>
      exact Or.inl (by simp [stepWith, h'])
  | frame =>
    cases h : s.particles with
    | none => exact Or.inl (by simp [stepWith, animateWith_none cfg s h])
    | some p => exact Or.inr (by simp [stepWith, animateWith_some cfg s p h])

theorem runWith_append_one (cfg : Config) (s : State) (es : List Event) (e : Event) :
    runWith cfg s (es ++ [e]) = stepWith cfg (runWith cfg s es) e := by
  simp [runWith, List.foldl_append]

theorem runWith_cons (cfg : Config) (s : State) (e : Event) (es : List Event) :
    runWith cfg s (e :: es) = runWith cfg (stepWith cfg s e) es := rfl

theorem runWith_target_mem (cfg : Config) (es : List Event) (s : State)
    (h : s.targetExpand = 1 ∨ s.targetExpand = 2) :
    (runWith cfg s es).targetExpand = 1 ∨ (runWith cfg s es).targetExpand = 2 := by
  induction es generalizing s with
  | nil => exact h
  | cons e es ih => exact ih _ (stepWith_target_mem cfg s e h)

/-- With an ease rate in `[0, 1]` every callback keeps `expandFactor` in `[1, 2]`
as long as `targetExpand` is `1` or `2`. -/
theorem stepWith_expandFactor_mem (cfg : Config) (s : State) (e : Event)
    (hr0 : 0 ≤ cfg.expandSpeed) (hr1 : cfg.expandSpeed ≤ 1)
    (ht : s.targetExpand = 1 ∨ s.targetExpand = 2)
    (hc : 1 ≤ s.expandFactor ∧ s.expandFactor ≤ 2) :
    1 ≤ (stepWith cfg s e).expandFactor ∧ (stepWith cfg s e).expandFactor ≤ 2 := by
  rcases stepWith_expandFactor cfg s e with h | h
  · rw [h]; exact hc
  · rw [h]
    obtain ⟨hc1, hc2⟩ := hc
    rcases ht with ht | ht <;> rw [ht] <;> constructor <;> nlinarith

theorem runWith_expandFactor_mem (cfg : Config) (es : List Event) (s : State)
    (hr0 : 0 ≤ cfg.expandSpeed) (hr1 : cfg.expandSpeed ≤ 1)
    (ht : s.targetExpand = 1 ∨ s.targetExpand = 2)
    (hc : 1 ≤ s.expandFactor ∧ s.expandFactor ≤ 2) :
    1 ≤ (runWith cfg s es).expandFactor ∧ (runWith cfg s es).expandFactor ≤ 2 := by
  induction es generalizing s with
  | nil => exact hc
  | cons e es ih =>
    exact ih _ (stepWith_target_mem cfg s e ht) (stepWith_expandFactor_mem cfg s e hr0 hr1 ht hc)

/-! ## Claims about the hand callback and the reset -/

/-- C5: a hand callback whose `multiHandLandmarks` is missing or empty leaves the
whole state, and so `handPosition`, `isPinching`, `targetExpand`, `expandFactor`
and `rotationSpeed`, exactly as it was. -/
theorem onHandResults_without_landmarks (s : State) :
    onHandResults s { multiHandLandmarks := none } = s ∧
      onHandResults s { multiHandLandmarks := some [] } = s ∧
      ∀ r : Results, r.multiHandLandmarks = none ∨ r.multiHandLandmarks = some [] →
        (onHandResults s r).handPosition = s.handPosition ∧
        (onHandResults s r).isPinching = s.isPinching ∧
        (onHandResults s r).targetExpand = s.targetExpand ∧
        (onHandResults s r).expandFactor = s.expandFactor ∧
        (onHandResults s r).rotationSpeed = s.rotationSpeed := by
  refine ⟨rfl, rfl, ?_⟩
  rintro ⟨m⟩ (h | h) <;> simp only at h <;> subst h <;> exact ⟨rfl, rfl, rfl, rfl, rfl⟩

/-- C5 at the state `ready` with an empty `multiHandLandmarks`. -/
theorem onHandResults_without_landmarks_witness :
    (onHandResults ready { multiHandLandmarks := some [] }).handPosition = ready.handPosition ∧
      (onHandResults ready { multiHandLandmarks := some [] }).isPinching = ready.isPinching ∧
      (onHandResults ready { multiHandLandmarks := some [] }).targetExpand = ready.targetExpand ∧
      (onHandResults ready { multiHandLandmarks := some [] }).expandFactor = ready.expandFactor ∧
      (onHandResults ready { multiHandLandmarks := some [] }).rotationSpeed = ready.rotationSpeed :=
  (onHandResults_without_landmarks ready).2.2 { multiHandLandmarks := some [] } (Or.inr rfl)

/-- C4: once the particle field exists, `resetView` succeeds from every state and
sets `targetExpand` to 1, `rotationSpeed` to (0, 0) and the field's rotation
angles to (0, 0, 0); the result does not depend on the prior `targetExpand`
(it is not a toggle), and `expandFactor`, `handPosition`, `isPinching` and the
field's scale are untouched.  The `r` key runs exactly this. -/
theorem resetView_forces_normal (s : State) (p : Particles) (h : s.particles = some p) :
    ∃ s', resetView s = some s' ∧
      s'.targetExpand = 1 ∧
      s'.rotationSpeed = { x := 0, y := 0 } ∧
      s'.particles = some { rotation := { x := 0, y := 0, z := 0 }, scale := p.scale } ∧
      s'.expandFactor = s.expandFactor ∧
      s'.handPosition = s.handPosition ∧
      s'.isPinching = s.isPinching ∧
      (∀ t : ℚ, resetView { s with targetExpand := t } = some s') ∧
      keydown ['r'] s = some s' ∧ keydown ['R'] s = some s' := by
  refine ⟨_, resetView_some s p h, rfl, rfl, rfl, rfl, rfl, rfl, ?_, ?_, ?_⟩
  · intro t
    rw [resetView_some { s with targetExpand := t } p h]
  · have : keydown ['r'] s = resetView s := by
      unfold keydown
      rw [if_neg (by decide), if_pos (by decide)]
    rw [this, resetView_some s p h]
  · have : keydown ['R'] s = resetView s := by
      unfold keydown
      rw [if_neg (by decide), if_pos (by decide)]
    rw [this, resetView_some s p h]

/-- C4 at the state `spinning`: expanded, pinching, turning. -/
theorem resetView_forces_normal_witness :
    ∃ s', resetView spinning = some s' ∧
      s'.targetExpand = 1 ∧
      s'.rotationSpeed = { x := 0, y := 0 } ∧
      s'.particles = some { rotation := { x := 0, y := 0, z := 0 }, scale := { x := 2, y := 2, z := 2 } } ∧
      s'.expandFactor = 3 / 2 ∧
      s'.handPosition = { x := 1 / 2, y := 1 / 4 } ∧
      s'.isPinching = true ∧
      (∀ t : ℚ, resetView { spinning with targetExpand := t } = some s') ∧
      keydown ['r'] spinning = some s' ∧ keydown ['R'] spinning = some s' :=
  resetView_forces_normal spinning
    { rotation := { x := 1, y := 2, z := 0 }, scale := { x := 2, y := 2, z := 2 } } rfl

/-- C6 fails as stated: with thumb tip and index tip at the same point the
distance is 0, which is below 0.05, so from the not-pinching state `ready` the
callback sets `isPinching` to true and toggles `targetExpand` from 1 to 2. -/
theorem zero_distance_counterexample :
    touching 4 = touching 8 ∧ distanceSq touching = 0 ∧
      ready.isPinching = false ∧ ready.targetExpand = 1 ∧
      (onHandResults ready (oneHand touching)).isPinching = true ∧
      (onHandResults ready (oneHand touching)).targetExpand = 2 ∧
      ¬ ((onHandResults ready (oneHand touching)).isPinching = false ∧
          (onHandResults ready (oneHand touching)).targetExpand = ready.targetExpand) := by
  have hd : distanceSq touching = 0 := by
    simp [distanceSq, touching]
  have hp : sqrtLt (distanceSq touching) CONFIG.pinchThreshold = true := by
    rw [hd]
    norm_num [sqrtLt, CONFIG]
  have hs : onHandResults ready (oneHand touching) =
      onHandResultsWith CONFIG ready { multiHandLandmarks := some (touching :: []) } := rfl
  rw [hs, onHandResultsWith_cons, hp]
  refine ⟨rfl, hd, rfl, rfl, rfl, ?_, ?_⟩
  · norm_num [ready, state, toggle]
  · norm_num [ready, state, toggle]

/-- C6, amended: when the thumb tip and the index tip coincide the computed
distance is 0, which passes the test `distance < 0.05`; `onHandResults` sets
`isPinching` to true, toggles `targetExpand` if it was not pinching before, and
leaves `targetExpand` alone if it was. -/
theorem zero_distance_is_pinch (s : State) (lm : Landmarks) (rest : List Landmarks)
    (h : lm 4 = lm 8) :
    Real.sqrt ((distanceSq lm : ℚ) : ℝ) = 0 ∧
      (onHandResults s { multiHandLandmarks := some (lm :: rest) }).isPinching = true ∧
      (s.isPinching = false →
        (onHandResults s { multiHandLandmarks := some (lm :: rest) }).targetExpand =
          toggle s.targetExpand) ∧
      (s.isPinching = true →
        (onHandResults s { multiHandLandmarks := some (lm :: rest) }).targetExpand =
          s.targetExpand) := by
  have hd : distanceSq lm = 0 := by
    simp [distanceSq, h]
  have hp : sqrtLt (distanceSq lm) CONFIG.pinchThreshold = true := by
    rw [hd]
    norm_num [sqrtLt, CONFIG]
  unfold onHandResults
  rw [onHandResultsWith_cons, hp]
  refine ⟨by simp [hd], rfl, ?_, ?_⟩
  · intro h0
    simp [h0]
  · intro h1
    simp [h1]

/-- C6, amended, at the state `ready` and the landmark set `touching`. -/
theorem zero_distance_is_pinch_witness :
    Real.sqrt ((distanceSq touching : ℚ) : ℝ) = 0 ∧
      (onHandResults ready { multiHandLandmarks := some (touching :: []) }).isPinching = true ∧
      (ready.isPinching = false →
        (onHandResults ready { multiHandLandmarks := some (touching :: []) }).targetExpand =
          toggle ready.targetExpand) ∧
      (ready.isPinching = true →
        (onHandResults ready { multiHandLandmarks := some (touching :: []) }).targetExpand =
          ready.targetExpand) :=
  zero_distance_is_pinch ready touching [] rfl

/-! ## Pinch edge detection -/

/-- On a pinch frame the callback sets `isPinching` and toggles exactly when the
previous frame was not a pinch. -/
theorem onHandResultsWith_pinch (cfg : Config) (s : State) (r : Results)
    (h : IsPinchFrame cfg r) :
    (onHandResultsWith cfg s r).isPinching = true ∧
      (onHandResultsWith cfg s r).targetExpand =
        if s.isPinching then s.targetExpand else toggle s.targetExpand := by
  obtain ⟨lm, rest, hlm, hd⟩ := h
  have hp : sqrtLt (distanceSq lm) cfg.pinchThreshold = true :=
    (sqrtLt_iff_real _ _ (distanceSq_nonneg lm)).2 hd
  obtain ⟨m⟩ := r
  simp only at hlm
  subst hlm
  rw [onHandResultsWith_cons, hp]
  refine ⟨rfl, ?_⟩
  cases s.isPinching <;> rfl

/-- While the pinch is held, further pinch frames change neither flag nor target. -/
theorem runWith_held_pinch (cfg : Config) (rs : List Results) (s : State)
    (h1 : s.isPinching = true) (hrs : ∀ r ∈ rs, IsPinchFrame cfg r) :
    (runWith cfg s (rs.map Event.handResults)).isPinching = true ∧
      (runWith cfg s (rs.map Event.handResults)).targetExpand = s.targetExpand := by
  induction rs generalizing s with
  | nil => exact ⟨h1, rfl⟩
  | cons r rs ih =>
    have hr := onHandResultsWith_pinch cfg s r (hrs r (List.mem_cons_self _ _))
    rw [h1] at hr
    have := ih (onHandResultsWith cfg s r) hr.1 (fun r' hr' => hrs r' (List.mem_cons_of_mem _ hr'))
    rw [List.map_cons, runWith_cons]
    refine ⟨this.1, ?_⟩
    have e : stepWith cfg s (Event.handResults r) = onHandResultsWith cfg s r := rfl
    rw [e, this.2]
    simpa using hr.2

theorem isPinchFrame_pinched : IsPinchFrame CONFIG (oneHand pinched) := by
  refine ⟨pinched, [], rfl, (sqrtLt_iff_real _ _ (distanceSq_nonneg _)).1 ?_⟩
  norm_num [sqrtLt, distanceSq, pinched, CONFIG]

/-- C1: from every state with `isPinching = false`, a run of n ≥ 1 consecutive
landmark-bearing callbacks whose thumb-index distance is below `pinchThreshold`
flips `targetExpand` (1 to 2, 2 to 1) at the first callback of the run, and
after every further callback of the run the value is still the one the first
callback left: the run toggles exactly once, whatever its length. -/
theorem pinch_run_toggles_once (s : State) (r : Results) (rs : List Results)
    (h0 : s.isPinching = false) (hr : IsPinchFrame CONFIG r)
    (hrs : ∀ r' ∈ rs, IsPinchFrame CONFIG r') :
    (onHandResults s r).targetExpand = toggle s.targetExpand ∧
      (onHandResults s r).targetExpand ≠ s.targetExpand ∧
      (s.targetExpand = 1 → (onHandResults s r).targetExpand = 2) ∧
      (s.targetExpand = 2 → (onHandResults s r).targetExpand = 1) ∧
      ∀ k, k ≤ rs.length →
        (run s ((r :: rs.take k).map Event.handResults)).targetExpand =
          (onHandResults s r).targetExpand ∧
        (run s ((r :: rs.take k).map Event.handResults)).isPinching = true := by
  have h1 := onHandResultsWith_pinch CONFIG s r hr
  rw [h0] at h1
  have ht : (onHandResults s r).targetExpand = toggle s.targetExpand := by
    simpa [onHandResults] using h1.2
  refine ⟨ht, ?_, ?_, ?_, ?_⟩
  · rw [ht]; exact toggle_ne _
  · intro h; rw [ht, h]; norm_num [toggle]
  · intro h; rw [ht, h]; norm_num [toggle]
  · intro k _
    have hk : ∀ r' ∈ rs.take k, IsPinchFrame CONFIG r' :=
      fun r' hr' => hrs r' (List.mem_of_mem_take hr')
    have := runWith_held_pinch CONFIG (rs.take k) (onHandResultsWith CONFIG s r) h1.1 hk
    rw [List.map_cons]
    exact ⟨this.2, this.1⟩

/-- C1 at the state `ready` with a run of three pinch frames: one toggle, 1 to 2. -/
theorem pinch_run_toggles_once_witness :
    (onHandResults ready (oneHand pinched)).targetExpand = 2 ∧
      (run ready ([oneHand pinched, oneHand pinched, oneHand pinched].map
        Event.handResults)).targetExpand = 2 := by
  have h := pinch_run_toggles_once ready (oneHand pinched) [oneHand pinched, oneHand pinched] rfl
    isPinchFrame_pinched
    (fun r' hr' => by
      simp only [List.mem_cons, List.mem_singleton, List.not_mem_nil, or_false, or_self] at hr'
      rw [hr']
      exact isPinchFrame_pinched)
  have h2 := h.2.2.1 rfl
  refine ⟨h2, ?_⟩
  have h3 := (h.2.2.2.2 2 (by simp)).1
  rw [h2] at h3
  simpa using h3

/-! ## Rotation command -/

/-- C7 fails as stated: with the palm at remapped position (0.5, -0.3) the
callback leaves `(rotationSpeed.x, rotationSpeed.y) = (-0.006, 0.01)`, not
`(0.01, -0.006)`: the two components are crossed. -/
theorem rotation_command_counterexample :
    (onHandResults ready (oneHand offCentre)).handPosition = { x := 0.5, y := -0.3 } ∧
      (onHandResults ready (oneHand offCentre)).rotationSpeed = { x := -0.006, y := 0.01 } ∧
      ¬ ((onHandResults ready (oneHand offCentre)).rotationSpeed.x = 0.5 * 0.02 ∧
          (onHandResults ready (oneHand offCentre)).rotationSpeed.y = -0.3 * 0.02) := by
  have hs : onHandResults ready (oneHand offCentre) =
      onHandResultsWith CONFIG ready { multiHandLandmarks := some (offCentre :: []) } := rfl
  rw [hs, onHandResultsWith_cons]
  simp only [offCentre, mkLandmarks_palm]
  norm_num

/-- C7, amended: when `onHandResults` processes a landmark set whose remapped palm
position is p, it stores p in `handPosition` and sets the pitch rate
`rotationSpeed.x` to `p.y * 0.02` and the yaw rate `rotationSpeed.y` to
`p.x * 0.02` (components crossed); for p = (0.5, -0.3) this is
`(rotationSpeed.x, rotationSpeed.y) = (-0.006, 0.01)`, and after the next
`animate` tick with no new signal it is `(-0.0057, 0.0095)`. -/
theorem rotation_command_crossed (s : State) (lm : Landmarks) (rest : List Landmarks)
    (q : Particles) (hq : s.particles = some q) :
    (onHandResults s { multiHandLandmarks := some (lm :: rest) }).handPosition =
        { x := ((lm 9).x - 0.5) * 2, y := -((lm 9).y - 0.5) * 2 } ∧
      (onHandResults s { multiHandLandmarks := some (lm :: rest) }).rotationSpeed =
        { x := (onHandResults s { multiHandLandmarks := some (lm :: rest) }).handPosition.y * 0.02
          y := (onHandResults s { multiHandLandmarks := some (lm :: rest) }).handPosition.x * 0.02 } ∧
      ((onHandResults s { multiHandLandmarks := some (lm :: rest) }).handPosition =
          { x := 0.5, y := -0.3 } →
        (onHandResults s { multiHandLandmarks := some (lm :: rest) }).rotationSpeed =
          { x := -0.006, y := 0.01 } ∧
        (animate (onHandResults s { multiHandLandmarks := some (lm :: rest) })).rotationSpeed =
          { x := -0.0057, y := 0.0095 }) := by
  have hp : (onHandResults s { multiHandLandmarks := some (lm :: rest) }).particles = some q := by
    rw [← hq]; rfl
  refine ⟨rfl, rfl, ?_⟩
  intro h
  have hr : (onHandResults s { multiHandLandmarks := some (lm :: rest) }).rotationSpeed =
      { x := -0.006, y := 0.01 } := by
    have : (onHandResults s { multiHandLandmarks := some (lm :: rest) }).rotationSpeed =
        { x := (onHandResults s { multiHandLandmarks := some (lm :: rest) }).handPosition.y * 0.02
          y := (onHandResults s { multiHandLandmarks := some (lm :: rest) }).handPosition.x * 0.02 } :=
      rfl
    rw [this, h]
    norm_num
  refine ⟨hr, ?_⟩
  unfold animate
  rw [animateWith_some CONFIG _ q hp]
  simp only [hr, CONFIG]
  norm_num

/-- C7, amended, at the state `ready` with the palm at remapped position (0.5, -0.3). -/
theorem rotation_command_crossed_witness :
    (onHandResults ready (oneHand offCentre)).rotationSpeed = { x := -0.006, y := 0.01 } ∧
      (animate (onHandResults ready (oneHand offCentre))).rotationSpeed =
        { x := -0.0057, y := 0.0095 } :=
  (rotation_command_crossed ready offCentre [] _ rfl).2.2
    (by
      rw [(rotation_command_crossed ready offCentre [] _ rfl).1]
      simp only [offCentre, mkLandmarks_palm]
      norm_num)

/-! ## Scale easing -/

/-- C2: with the particle field present, for every starting `expandFactor` c0,
every constant `targetExpand` g and every n, after n ticks of `animate`'s easing
step `current += (target - current) * r` at the program's ease rate r = 0.05,
`|current - g| = |c0 - g| * (1 - r)^n`; the same law holds under every
configuration whose ease rate is at most 1, and the signed form
`current - g = (c0 - g) * (1 - r)^n` under every configuration; with c0 = 1,
g = 2, r = 0.05 and n = 10 the value is `2 - 0.95^10`, between 1.401 and 1.402. -/
theorem easing_geometric (s : State) (p : Particles) (n : ℕ) (h : s.particles = some p) :
    ticksWith CONFIG n s = animate^[n] s ∧
      (animate^[n] s).targetExpand = s.targetExpand ∧
      |(animate^[n] s).expandFactor - s.targetExpand| =
        |s.expandFactor - s.targetExpand| * (1 - CONFIG.expandSpeed) ^ n ∧
      |(animate^[n] s).expandFactor - s.targetExpand| =
        |s.expandFactor - s.targetExpand| * (1 - 0.05) ^ n ∧
      (∀ cfg : Config,
        (ticksWith cfg n s).expandFactor - s.targetExpand =
          (s.expandFactor - s.targetExpand) * (1 - cfg.expandSpeed) ^ n ∧
        (cfg.expandSpeed ≤ 1 →
          |(ticksWith cfg n s).expandFactor - s.targetExpand| =
            |s.expandFactor - s.targetExpand| * (1 - cfg.expandSpeed) ^ n)) ∧
      (s.expandFactor = 1 → s.targetExpand = 2 →
        (animate^[10] s).expandFactor = 2 - 0.95 ^ 10 ∧
        1.401 < (animate^[10] s).expandFactor ∧
        (animate^[10] s).expandFactor < 1.402) := by
  have ht : ∀ m, ticksWith CONFIG m s = animate^[m] s := fun _ => rfl
  have hlaw : ∀ cfg : Config, cfg.expandSpeed ≤ 1 →
      |(ticksWith cfg n s).expandFactor - s.targetExpand| =
        |s.expandFactor - s.targetExpand| * (1 - cfg.expandSpeed) ^ n := by
    intro cfg hr
    rw [ticksWith_expandFactor cfg n s p h, abs_mul, abs_pow,
      abs_of_nonneg (by linarith : (0 : ℚ) ≤ 1 - cfg.expandSpeed)]
  have hc : |(animate^[n] s).expandFactor - s.targetExpand| =
      |s.expandFactor - s.targetExpand| * (1 - CONFIG.expandSpeed) ^ n := by
    rw [← ht n]
    exact hlaw CONFIG (by norm_num [CONFIG])
  refine ⟨rfl, ?_, hc, hc, ?_, ?_⟩
  · rw [← ht n]
    exact ticksWith_target CONFIG n s
  · intro cfg
    exact ⟨ticksWith_expandFactor cfg n s p h, hlaw cfg⟩
  · intro hc0 hg
    have h10 := ticksWith_expandFactor CONFIG 10 s p h
    rw [hc0, hg, ht 10] at h10
    have hv : (animate^[10] s).expandFactor = 2 - 0.95 ^ 10 := by
      have : (animate^[10] s).expandFactor = 2 + (1 - 2) * (1 - CONFIG.expandSpeed) ^ 10 := by
        linarith
      rw [this]
      norm_num [CONFIG]
    rw [hv]
    norm_num

/-- C2 at the state `expanding`: ten ticks from 1 towards 2 at rate 0.05. -/
theorem easing_geometric_witness :
    (animate^[10] expanding).expandFactor = 2 - 0.95 ^ 10 ∧
      1.401 < (animate^[10] expanding).expandFactor ∧
      (animate^[10] expanding).expandFactor < 1.402 :=
  (easing_geometric expanding _ 10 rfl).2.2.2.2.2 rfl rfl

/-- C10: with the particle field present and an ease rate r with 0 < r < 1, one
easing step of `animate` yields `c' = c + (g - c) * r`, strictly between c and g
when c ≠ g and equal to c when c = g, so c' never passes g; and under the
program's r = 0.05, from every state with `expandFactor = 1` and `targetExpand`
in {1, 2}, after every sequence of hand callbacks, key presses and ticks
`expandFactor` lies in [1, 2]. -/
theorem easing_never_overshoots (cfg : Config) (s : State) (p : Particles)
    (h : s.particles = some p) (hr0 : 0 < cfg.expandSpeed) (hr1 : cfg.expandSpeed < 1) :
    (animateWith cfg s).expandFactor =
        s.expandFactor + (s.targetExpand - s.expandFactor) * cfg.expandSpeed ∧
      (s.expandFactor < s.targetExpand →
        s.expandFactor < (animateWith cfg s).expandFactor ∧
        (animateWith cfg s).expandFactor < s.targetExpand) ∧
      (s.targetExpand < s.expandFactor →
        s.targetExpand < (animateWith cfg s).expandFactor ∧
        (animateWith cfg s).expandFactor < s.expandFactor) ∧
      (s.expandFactor = s.targetExpand →
        (animateWith cfg s).expandFactor = s.expandFactor) ∧
      ∀ (s0 : State) (events : List Event), s0.expandFactor = 1 →
        s0.targetExpand = 1 ∨ s0.targetExpand = 2 →
        1 ≤ (run s0 events).expandFactor ∧ (run s0 events).expandFactor ≤ 2 := by
  have e : (animateWith cfg s).expandFactor =
      s.expandFactor + (s.targetExpand - s.expandFactor) * cfg.expandSpeed := by
    rw [animateWith_some cfg s p h]
  refine ⟨e, ?_, ?_, ?_, ?_⟩
  · intro hlt
    rw [e]
    constructor <;> nlinarith
  · intro hlt
    rw [e]
    constructor <;> nlinarith
  · intro heq
    rw [e, heq]
    ring
  · intro s0 events hc ht
    exact runWith_expandFactor_mem CONFIG events s0 (by norm_num [CONFIG]) (by norm_num [CONFIG])
      ht (by rw [hc]; norm_num)

/-- C10 at the state `expanding` and on a short run with two toggles. -/
theorem easing_never_overshoots_witness :
    (1 : ℚ) < (animateWith CONFIG expanding).expandFactor ∧
      (animateWith CONFIG expanding).expandFactor < 2 ∧
      1 ≤ (run ready [Event.key [' '], Event.frame, Event.frame, Event.key [' '],
        Event.frame]).expandFactor ∧
      (run ready [Event.key [' '], Event.frame, Event.frame, Event.key [' '],
        Event.frame]).expandFactor ≤ 2 := by
  have h := easing_never_overshoots CONFIG expanding _ rfl (by norm_num [CONFIG])
    (by norm_num [CONFIG])
  have h1 := h.2.1 (by norm_num [expanding, ready, state])
  exact ⟨h1.1, h1.2, h.2.2.2.2 ready _ rfl (Or.inl rfl)⟩

/-! ## Rotation damping -/

/-- C3: with the particle field present, for every initial `rotationSpeed` v0 and
every n, after n consecutive `animate` ticks with no hand callback in between
`rotationSpeed` is `v0 * 0.95^n` componentwise; a component of v0 that is
non-zero is non-zero after every number of ticks, and yet it gets below every
positive bound from some tick on. -/
theorem rotation_damping (s : State) (p : Particles) (n : ℕ) (h : s.particles = some p) :
    (ticksWith CONFIG n s).rotationSpeed =
        { x := s.rotationSpeed.x * 0.95 ^ n, y := s.rotationSpeed.y * 0.95 ^ n } ∧
      (s.rotationSpeed.x ≠ 0 → (ticksWith CONFIG n s).rotationSpeed.x ≠ 0) ∧
      (s.rotationSpeed.y ≠ 0 → (ticksWith CONFIG n s).rotationSpeed.y ≠ 0) ∧
      ∀ ε : ℚ, 0 < ε → ∃ N, ∀ m, N ≤ m →
        |(ticksWith CONFIG m s).rotationSpeed.x| < ε ∧
        |(ticksWith CONFIG m s).rotationSpeed.y| < ε := by
  have hv : ∀ m, (ticksWith CONFIG m s).rotationSpeed =
      { x := s.rotationSpeed.x * 0.95 ^ m, y := s.rotationSpeed.y * 0.95 ^ m } := by
    intro m
    rw [ticksWith_rotationSpeed CONFIG m s p h]
    rfl
  have hpos : ∀ m : ℕ, (0 : ℚ) < 0.95 ^ m := fun m => pow_pos (by norm_num) m
  refine ⟨hv n, ?_, ?_, ?_⟩
  · intro hx
    rw [hv n]
    exact mul_ne_zero hx (hpos n).ne'
  · intro hy
    rw [hv n]
    exact mul_ne_zero hy (hpos n).ne'
  · intro ε hε
    have hb : (0 : ℚ) < |s.rotationSpeed.x| + |s.rotationSpeed.y| + 1 := by positivity
    obtain ⟨N, hN⟩ := exists_pow_lt_of_lt_one (div_pos hε hb) (by norm_num : (0.95 : ℚ) < 1)
    refine ⟨N, fun m hm => ?_⟩
    have hle : (0.95 : ℚ) ^ m ≤ 0.95 ^ N :=
      pow_le_pow_of_le_one (by norm_num) (by norm_num) hm
    have hlt : (0.95 : ℚ) ^ m < ε / (|s.rotationSpeed.x| + |s.rotationSpeed.y| + 1) :=
      lt_of_le_of_lt hle hN
    have hmul : (|s.rotationSpeed.x| + |s.rotationSpeed.y| + 1) * 0.95 ^ m < ε := by
      have := (lt_div_iff₀ hb).1 hlt
      linarith
    rw [hv m]
    dsimp only
    rw [abs_mul, abs_mul, abs_of_pos (hpos m)]
    have hx := abs_nonneg s.rotationSpeed.x
    have hy := abs_nonneg s.rotationSpeed.y
    have hp := hpos m
    constructor <;> nlinarith

/-- C3 at the state `spinning` after two ticks. -/
theorem rotation_damping_witness :
    (ticksWith CONFIG 2 spinning).rotationSpeed =
        { x := 1 / 100 * 0.95 ^ 2, y := 1 / 50 * 0.95 ^ 2 } ∧
      (ticksWith CONFIG 2 spinning).rotationSpeed.x ≠ 0 ∧
      (ticksWith CONFIG 2 spinning).rotationSpeed.y ≠ 0 := by
  have h := rotation_damping spinning _ 2 rfl
  exact ⟨h.1, h.2.1 (by norm_num [spinning]), h.2.2.1 (by norm_num [spinning])⟩

/-! ## Toggle state machine -/

/-- A hand callback that changes `targetExpand` is a pinch rising edge. -/
theorem onHandResultsWith_changes (cfg : Config) (s : State) (r : Results)
    (h : (onHandResultsWith cfg s r).targetExpand ≠ s.targetExpand) :
    s.isPinching = false ∧ IsPinchFrame cfg r := by
  rcases r with ⟨_ | _ | ⟨lm, rest⟩⟩
  · exact absurd rfl h
  · exact absurd rfl h
  · rw [onHandResultsWith_cons] at h
    dsimp only at h
    by_cases hp : sqrtLt (distanceSq lm) cfg.pinchThreshold = true
    · cases hw : s.isPinching with
      | false =>
        exact ⟨rfl, lm, rest, rfl, (sqrtLt_iff_real _ _ (distanceSq_nonneg lm)).1 hp⟩
      | true =>
        rw [hp, hw] at h
        exact absurd rfl h
    · rw [Bool.not_eq_true] at hp
      rw [hp] at h
      exact absurd rfl h

/-- A key press that changes `targetExpand` is the space key or the `r` key. -/
theorem keydown_changes (k : List Char) (s : State)
    (h : ((keydown k s).getD s).targetExpand ≠ s.targetExpand) :
    toLowerCase k = [' '] ∨ toLowerCase k = ['r'] := by
  by_contra hk
  rw [not_or] at hk
  apply h
  unfold keydown
  rw [if_neg hk.1, if_neg hk.2]
  rfl

theorem keydown_space (s : State) :
    keydown [' '] s = some { s with targetExpand := toggle s.targetExpand } := by
  unfold keydown
  rw [if_pos (by decide)]

theorem stepWith_space (cfg : Config) (s : State) :
    (stepWith cfg s (Event.key [' '])).targetExpand = toggle s.targetExpand := by
  show ((keydown [' '] s).getD s).targetExpand = _
  rw [keydown_space]
  rfl

/-- C9: from every state with `targetExpand = 1` (such as the initial `state`),
after every finite sequence of hand callbacks, key presses (space, `r`, others)
and `animate` ticks, `targetExpand` is 1 or 2; at the state reached, a space key
or a pinch rising edge flips it to the other value, two space keys in a row
restore it, a tick leaves it alone, and any callback that changes it is a space
key, an `r` key or a pinch rising edge. -/
theorem targetExpand_toggle_invariant (s : State) (events : List Event)
    (h : s.targetExpand = 1) :
    ((run s events).targetExpand = 1 ∨ (run s events).targetExpand = 2) ∧
      (run s (events ++ [Event.key [' ']])).targetExpand = toggle (run s events).targetExpand ∧
      (run s (events ++ [Event.key [' ']])).targetExpand ≠ (run s events).targetExpand ∧
      ((run s events).targetExpand = 1 → (run s (events ++ [Event.key [' ']])).targetExpand = 2) ∧
      ((run s events).targetExpand = 2 → (run s (events ++ [Event.key [' ']])).targetExpand = 1) ∧
      (run s (events ++ [Event.key [' '], Event.key [' ']])).targetExpand =
        (run s events).targetExpand ∧
      (∀ r, (run s events).isPinching = false → IsPinchFrame CONFIG r →
        (run s (events ++ [Event.handResults r])).targetExpand =
          toggle (run s events).targetExpand) ∧
      (run s (events ++ [Event.frame])).targetExpand = (run s events).targetExpand ∧
      ∀ e, (run s (events ++ [e])).targetExpand ≠ (run s events).targetExpand →
        (∃ k, e = Event.key k ∧ (toLowerCase k = [' '] ∨ toLowerCase k = ['r'])) ∨
        (∃ r, e = Event.handResults r ∧ (run s events).isPinching = false ∧
          IsPinchFrame CONFIG r) := by
  have hm : (run s events).targetExpand = 1 ∨ (run s events).targetExpand = 2 :=
    runWith_target_mem CONFIG events s (Or.inl h)
  have hstep : ∀ e, run s (events ++ [e]) = stepWith CONFIG (run s events) e :=
    fun e => runWith_append_one CONFIG s events e
  have hsp : (run s (events ++ [Event.key [' ']])).targetExpand =
      toggle (run s events).targetExpand := by
    rw [hstep, stepWith_space]
  refine ⟨hm, hsp, ?_, ?_, ?_, ?_, ?_, ?_, ?_⟩
  · rw [hsp]; exact toggle_ne _
  · intro h1; rw [hsp, h1]; norm_num [toggle]
  · intro h2; rw [hsp, h2]; norm_num [toggle]
  · have e2 : events ++ [Event.key [' '], Event.key [' ']] =
        (events ++ [Event.key [' ']]) ++ [Event.key [' ']] := by simp
    rw [e2]
    have h2 : (run s (events ++ [Event.key [' ']] ++ [Event.key [' ']])).targetExpand =
        toggle (run s (events ++ [Event.key [' ']])).targetExpand := by
      unfold run
      rw [runWith_append_one, stepWith_space]
    rw [h2, hsp]
    exact toggle_toggle _ hm
  · intro r h0 hr
    rw [hstep]
    have := (onHandResultsWith_pinch CONFIG (run s events) r hr).2
    rw [h0] at this
    simpa [stepWith] using this
  · rw [hstep]
    exact (animateWith_frame CONFIG _).1
  · intro e he
    rw [hstep] at he
    cases e with
    | handResults r =>
      exact Or.inr ⟨r, rfl, onHandResultsWith_changes CONFIG _ r he⟩
    | key k =>
      exact Or.inl ⟨k, rfl, keydown_changes k _ he⟩
    | frame =>
      exact absurd (animateWith_frame CONFIG _).1 he

/-- C9 from the state `ready` on a run with a pinch, a tick, a reset and a space key. -/
theorem targetExpand_toggle_invariant_witness :
    (run ready [Event.handResults (oneHand pinched), Event.frame, Event.key ['r'],
        Event.key [' ']]).targetExpand = 1 ∨
      (run ready [Event.handResults (oneHand pinched), Event.frame, Event.key ['r'],
        Event.key [' ']]).targetExpand = 2 :=
  (targetExpand_toggle_invariant ready
    [Event.handResults (oneHand pinched), Event.frame, Event.key ['r'], Event.key [' ']] rfl).1

/-! ## Spiral generator -/

/-- The planar radius of a generated point is the absolute value of `t * maxRadius`. -/
theorem planarRadius_particlePosition (cfg : Config) (i : ℕ) (t u : ℝ) :
    planarRadius (particlePosition cfg i t u) = |t * (cfg.maxRadius : ℝ)| := by
  unfold planarRadius particlePosition
  dsimp only
  rw [← Real.sqrt_sq_eq_abs]
  congr 1
  have := Real.cos_sq_add_sin_sq
    (t * Real.pi * 2 * (cfg.spiralArms : ℝ) +
      (armIndex cfg i : ℝ) * (Real.pi * 2 / (cfg.spiralArms : ℝ)))
  linear_combination (t * (cfg.maxRadius : ℝ)) ^ 2 * this

/-- Indices below `n` on arm `a`, for a positive number of arms. -/
theorem armCount_eq (cfg : Config) (n a : ℕ) (hm : 0 < cfg.spiralArms) (ha : a < cfg.spiralArms) :
    armCount cfg n a = n / cfg.spiralArms + if a < n % cfg.spiralArms then 1 else 0 := by
  have h := Nat.count_modEq_card (b := n) hm a
  rw [Nat.mod_eq_of_lt ha] at h
  rw [← h]
  unfold armCount armIndex Nat.count
  rw [List.countP_eq_length_filter]
  congr 2
  funext i
  simp [Nat.ModEq, Nat.mod_eq_of_lt ha]

theorem createParticles_getElem_some (cfg : Config) (random : ℕ → ℝ) (j : ℕ) (pt : ℝ × ℝ × ℝ)
    (h : (createParticles cfg random)[j]? = some pt) :
    j < cfg.particleCount ∧
      pt = particlePosition cfg j (random (2 * j)) (random (2 * j + 1)) := by
  unfold createParticles at h
  rw [List.getElem?_map] at h
  by_cases hj : j < cfg.particleCount
  · rw [List.getElem?_range hj] at h
    simp only [Option.map_some', Option.some.injEq] at h
    exact ⟨hj, h.symm⟩
  · rw [List.getElem?_eq_none (by simpa using hj)] at h
    simp at h

/-- C8: in exact real arithmetic, for every particle index i and every draw
t ≥ 0 (in particular t in [0, 1)), the planar radius `sqrt(x^2 + z^2)` of the
position `createParticles` writes is `t * maxRadius`, whatever the arm offset
(for the program's `CONFIG`, `t * 3`); this holds for every entry of the
generated buffer, which has `particleCount` entries; and the arm assignment
`i mod spiralArms` is even: with 15000 particles and 5 arms, every index gets an
arm below 5 and each of the 5 arms receives exactly 3000 particles. -/
theorem spiral_geometry (cfg : Config) (i : ℕ) (t u : ℝ) (ht : 0 ≤ t)
    (hR : 0 ≤ cfg.maxRadius) :
    planarRadius (particlePosition cfg i t u) = t * (cfg.maxRadius : ℝ) ∧
      planarRadius (particlePosition CONFIG i t u) = t * 3 ∧
      (∀ (random : ℕ → ℝ), (createParticles cfg random).length = cfg.particleCount ∧
        ∀ (j : ℕ) (pt : ℝ × ℝ × ℝ), (createParticles cfg random)[j]? = some pt →
          0 ≤ random (2 * j) → planarRadius pt = random (2 * j) * (cfg.maxRadius : ℝ)) ∧
      armIndex CONFIG i < 5 ∧
      ∀ a, a < 5 → armCount CONFIG CONFIG.particleCount a = 3000 := by
  have hR' : (0 : ℝ) ≤ (cfg.maxRadius : ℝ) := by exact_mod_cast hR
  refine ⟨?_, ?_, ?_, ?_, ?_⟩
  · rw [planarRadius_particlePosition, abs_of_nonneg (mul_nonneg ht hR')]
  · rw [planarRadius_particlePosition]
    have : ((CONFIG.maxRadius : ℚ) : ℝ) = 3 := by norm_num [CONFIG]
    rw [this, abs_of_nonneg (by positivity)]
  · intro random
    refine ⟨by simp [createParticles], ?_⟩
    intro j pt hj hrand
    rw [(createParticles_getElem_some cfg random j pt hj).2, planarRadius_particlePosition,
      abs_of_nonneg (mul_nonneg hrand hR')]
  · exact Nat.mod_lt _ (by decide)
  · intro a ha
    rw [armCount_eq CONFIG _ a (by decide) ha]
    rfl

/-- C8 for particle 7 drawn at t = 1/2 under the program's `CONFIG`. -/
theorem spiral_geometry_witness :
    planarRadius (particlePosition CONFIG 7 (1 / 2) (1 / 4)) = 1 / 2 * 3 ∧
      armIndex CONFIG 7 = 2 ∧
      armCount CONFIG 15000 2 = 3000 := by
  have h := spiral_geometry CONFIG 7 (1 / 2) (1 / 4) (by norm_num) (by norm_num [CONFIG])
  exact ⟨h.2.1, rfl, h.2.2.2.2 2 (by decide)⟩

end PixAura
